import Mathlib

/-!
Verification of the fractional-position ordering subsystem of the
`simple-kanban` service (Go + SQLite). The Go repository and handler layers
are embedded shallowly: SQLite tables become Lean lists of records,
`float64` positions become exact rationals `ℚ`, timestamps become `ℕ`
(operations that refresh `updated_at` take the current clock as an explicit
`now` argument), and each Go function that the claims mention becomes a
Lean function of the same name translated statement by statement.
A Go nil slice (which the JSON layer serialises as `null`) is modelled as
`none : Option (List α)`; a non-nil slice as `some rows`.
-/

namespace Kanban

/-- `models.List` (internal/models, list model): a kanban column. -/
structure KList where
  id : ℕ
  boardID : ℕ
  name : String
  position : ℚ
  color : String
  createdAt : ℕ
  updatedAt : ℕ
deriving Repr, DecidableEq

/-- `models.Card` (internal/models): a task in a list. -/
structure Card where
  id : ℕ
  listID : ℕ
  title : String
  description : String
  position : ℚ
  color : String
  dueDate : Option ℕ
  archived : Bool
  createdAt : ℕ
  updatedAt : ℕ
deriving Repr, DecidableEq

/-- `models.Board`. -/
structure Board where
  id : ℕ
  name : String
  description : String
  createdAt : ℕ
  updatedAt : ℕ
deriving Repr, DecidableEq

/-- `models.Comment`. -/
structure Comment where
  id : ℕ
  cardID : ℕ
  content : String
  createdAt : ℕ
deriving Repr, DecidableEq

/-- `models.Label`. -/
structure Label where
  id : ℕ
  name : String
  color : String
  createdAt : ℕ
deriving Repr, DecidableEq

/-- A row of the `card_labels` junction table (PRIMARY KEY (card_id, label_id)). -/
structure CardLabel where
  cardID : ℕ
  labelID : ℕ
deriving Repr, DecidableEq

/-- The SQLite database state: one list of rows per table. -/
structure KState where
  boards : List Board
  lists : List KList
  cards : List Card
  comments : List Comment
  cardLabels : List CardLabel
  labels : List Label
deriving Repr, DecidableEq

/-- `SELECT MAX(col)` over an already-filtered bag of values; `none` models
the SQL NULL produced on an empty set (scanned into a `sql.NullFloat64`
with `Valid = false`). -/
def sqlMax : List ℚ → Option ℚ
  | [] => none
  | x :: xs =>
    match sqlMax xs with
    | none => some x
    | some m => some (max x m)

/-- `SELECT MIN(col)`; `none` models SQL NULL on an empty set. -/
def sqlMin : List ℚ → Option ℚ
  | [] => none
  | x :: xs =>
    match sqlMin xs with
    | none => some x
    | some m => some (min x m)

/-- Positions of the lists of board `boardID` strictly below `target`:
the rows scanned by `SELECT MAX(position) FROM lists WHERE board_id = ?
AND position < ?` (internal/repository/list.go, `GetAdjacentPositions`). -/
def positionsBelow (lists : List KList) (boardID : ℕ) (target : ℚ) : List ℚ :=
  (lists.filter (fun l => l.boardID == boardID && decide (l.position < target))).map
    (fun l => l.position)

/-- Positions of the lists of board `boardID` strictly above `target`:
the rows scanned by `SELECT MIN(position) FROM lists WHERE board_id = ?
AND position > ?`. -/
def positionsAbove (lists : List KList) (boardID : ℕ) (target : ℚ) : List ℚ :=
  (lists.filter (fun l => l.boardID == boardID && decide (target < l.position))).map
    (fun l => l.position)

namespace ListRepo

/-- `ListRepository.GetAdjacentPositions` (internal/repository/list.go:208):
prev is `MAX(position)` over the board's lists strictly below the target
(0 when NULL, i.e. no such row), next is `MIN(position)` strictly above the
target (`prev + 2` when NULL). Note the two scans range over all lists of
the board — the list being moved is not excluded. -/
def getAdjacentPositions (lists : List KList) (boardID : ℕ) (target : ℚ) : ℚ × ℚ :=
  let prev := (sqlMax (positionsBelow lists boardID target)).getD 0
  let next := (sqlMin (positionsAbove lists boardID target)).getD (prev + 2)
  (prev, next)

/-- `ListRepository.GetByID` (list.go:56): `SELECT ... FROM lists WHERE id = ?`. -/
def getByID (lists : List KList) (id : ℕ) : Option KList :=
  lists.find? (fun l => l.id == id)

/-- `ListRepository.UpdatePosition` (list.go:139): `UPDATE lists SET
position = ?, updated_at = ? WHERE id = ?`; the Bool is
`RowsAffected > 0` (its negation is reported as "list not found"). -/
def updatePosition (lists : List KList) (id : ℕ) (pos : ℚ) (now : ℕ) :
    List KList × Bool :=
  (lists.map (fun l => if l.id == id then { l with position := pos, updatedAt := now } else l),
   lists.any (fun l => l.id == id))

end ListRepo

/-- The midpoint computation of `ListHandler.Move`
(internal/api/handlers/board.go:334): `newPosition := (prev + next) / 2`. -/
def allocMidpoint (prev next : ℚ) : ℚ := (prev + next) / 2

/-- The error taxonomy visible at the handler boundary: `notFound` is an
HTTP 404 with the given message, `internal` a 500. -/
inductive ApiErr
  | notFound (msg : String)
  | internal (msg : String)
deriving Repr, DecidableEq

namespace ListHandler

/-- `ListHandler.Move` (internal/api/handlers/board.go:302): fetch the list
(404 when absent), derive `(prev, next)` from the stored positions of the
list's board, take the midpoint, persist it via `UpdatePosition`, and
respond with the fetched list carrying the new position. The returned
state is the database after the operation. -/
def move (s : KState) (id : ℕ) (target : ℚ) (now : ℕ) :
    KState × Except ApiErr KList :=
  match ListRepo.getByID s.lists id with
  | none => (s, .error (.notFound "List not found"))
  | some list =>
    let pn := ListRepo.getAdjacentPositions s.lists list.boardID target
    let newPosition := allocMidpoint pn.1 pn.2
    let updated := ListRepo.updatePosition s.lists id newPosition now
    if updated.2 then
      ({ s with lists := updated.1 }, .ok { list with position := newPosition })
    else
      (s, .error (.internal "Failed to move list"))

end ListHandler

/-- Modelled from the spec (§4.2 step 3): the neighbour lookup as the spec
words it, with the List being moved excluded from both scans. The Go code
(`GetAdjacentPositions`) has no such exclusion; this definition exists only
to compare the two. -/
def specAdjacentPositionsExcluding (lists : List KList) (movingID boardID : ℕ)
    (target : ℚ) : ℚ × ℚ :=
  let others := lists.filter (fun l => !(l.id == movingID))
  let prev := (sqlMax (positionsBelow others boardID target)).getD 0
  let next := (sqlMin (positionsAbove others boardID target)).getD (prev + 2)
  (prev, next)

/-- `p` is the greatest stored position strictly below `t` among the lists of
board `bid` (the spec's "prev" when it exists). -/
def IsGreatestBelow (lists : List KList) (bid : ℕ) (t p : ℚ) : Prop :=
  (∃ l ∈ lists, l.boardID = bid ∧ l.position = p ∧ p < t) ∧
    ∀ l ∈ lists, l.boardID = bid → l.position < t → l.position ≤ p

/-- `q` is the smallest stored position strictly above `t` among the lists of
board `bid` (the spec's "next" when it exists). -/
def IsLeastAbove (lists : List KList) (bid : ℕ) (t q : ℚ) : Prop :=
  (∃ l ∈ lists, l.boardID = bid ∧ l.position = q ∧ t < q) ∧
    ∀ l ∈ lists, l.boardID = bid → t < l.position → q ≤ l.position

/-- `models.MoveCardRequest`: both fields carry gin's `binding:"required"`. -/
structure MoveCardRequest where
  listID : ℕ
  position : ℚ
deriving Repr, DecidableEq

/-- Go JSON binding of an optional float64 field (`position,omitempty`): an
absent field yields the zero value 0, indistinguishable from an explicit 0. -/
def bindPosition (o : Option ℚ) : ℚ := o.getD 0

/-- The Go slice built by a row-scan loop: it is nil — which the JSON layer
serialises as `null` — exactly when no row was appended. `none` models the
nil slice. -/
def scanSlice {α : Type} (rows : List α) : Option (List α) :=
  if rows.isEmpty then none else some rows

/-- The `ORDER BY c.created_at DESC` comparator of `CardRepository.Search`. -/
def createdDesc (a b : Card) : Prop := b.createdAt ≤ a.createdAt

instance : DecidableRel createdDesc := fun a b => Nat.decLe b.createdAt a.createdAt

instance : IsTotal Card createdDesc := ⟨fun a b => Nat.le_total b.createdAt a.createdAt⟩

instance : IsTrans Card createdDesc := ⟨fun _ _ _ hab hbc => le_trans hbc hab⟩

/-- `CardRepository.GetByID` (card.go:57): `SELECT ... FROM cards WHERE id = ?`. -/
def CardRepo.getByID (cards : List Card) (id : ℕ) : Option Card :=
  cards.find? (fun c => c.id == id)

/-- `CardRepository.Move` (card.go:152): the single statement `UPDATE cards
SET list_id = ?, position = ?, updated_at = ? WHERE id = ?`; the Bool is
`RowsAffected > 0` (its negation is reported as "card not found"). -/
def CardRepo.move (cards : List Card) (cardID newListID : ℕ) (newPosition : ℚ)
    (now : ℕ) : List Card × Bool :=
  (cards.map (fun c => if c.id == cardID then
      { c with listID := newListID, position := newPosition, updatedAt := now } else c),
   cards.any (fun c => c.id == cardID))

/-- `CardRepository.Archive` (card.go:177): `UPDATE cards SET archived = ?,
updated_at = ? WHERE id = ?`. -/
def CardRepo.archive (cards : List Card) (id : ℕ) (flag : Bool) (now : ℕ) :
    List Card × Bool :=
  (cards.map (fun c => if c.id == id then
      { c with archived := flag, updatedAt := now } else c),
   cards.any (fun c => c.id == id))

/-- `SELECT MAX(position) FROM cards WHERE list_id = ?` (card.go:27). -/
def CardRepo.maxSiblingPosition (cards : List Card) (listID : ℕ) : Option ℚ :=
  sqlMax ((cards.filter (fun c => c.listID == listID)).map (fun c => c.position))

/-- `CardRepository.Create` (card.go:23): a zero `Position` is recomputed as
max-sibling-position + 1 (the `sql.NullFloat64` reads as 0 when the MAX scan
returns NULL); a nonzero `Position` is inserted verbatim. `newID` stands for
the autoincremented id the INSERT returns. -/
def CardRepo.create (cards : List Card) (newID listID : ℕ)
    (title description color : String) (dueDate : Option ℕ) (position : ℚ)
    (archived : Bool) (now : ℕ) : List Card × Card :=
  let pos := if position == 0 then (CardRepo.maxSiblingPosition cards listID).getD 0 + 1
    else position
  let card : Card :=
    ⟨newID, listID, title, description, pos, color, dueDate, archived, now, now⟩
  (cards ++ [card], card)

/-- `SELECT MAX(position) FROM lists WHERE board_id = ?` (list.go:27). -/
def ListRepo.maxBoardPosition (lists : List KList) (boardID : ℕ) : Option ℚ :=
  sqlMax ((lists.filter (fun l => l.boardID == boardID)).map (fun l => l.position))

/-- `ListRepository.Create` (list.go:22), same position policy as
`CardRepository.Create`. -/
def ListRepo.create (lists : List KList) (newID boardID : ℕ) (name color : String)
    (position : ℚ) (now : ℕ) : List KList × KList :=
  let pos := if position == 0 then (ListRepo.maxBoardPosition lists boardID).getD 0 + 1
    else position
  let list : KList := ⟨newID, boardID, name, pos, color, now, now⟩
  (lists ++ [list], list)

/-- `CardHandler.Move` (internal/api/handlers/card.go:178): 404 when the card
or the target list is missing; otherwise a single repository `Move` with the
caller-supplied position, and the response echoes the card with the new list
and position. -/
def CardHandler.move (s : KState) (id : ℕ) (req : MoveCardRequest) (now : ℕ) :
    KState × Except ApiErr Card :=
  match CardRepo.getByID s.cards id with
  | none => (s, .error (.notFound "Card not found"))
  | some card =>
    match ListRepo.getByID s.lists req.listID with
    | none => (s, .error (.notFound "Target list not found"))
    | some _ =>
      let moved := CardRepo.move s.cards id req.listID req.position now
      if moved.2 then
        ({ s with cards := moved.1 },
         .ok { card with listID := req.listID, position := req.position })
      else (s, .error (.internal "Failed to move card"))

/-- `CardHandler.Archive`/`CardHandler.Unarchive` (handlers/card.go:224, 244):
both call `CardRepository.Archive` with the flag true resp. false and turn a
zero `RowsAffected` into a 404. -/
def CardHandler.archive (s : KState) (id : ℕ) (flag : Bool) (now : ℕ) :
    KState × Except ApiErr Unit :=
  let r := CardRepo.archive s.cards id flag now
  if r.2 then ({ s with cards := r.1 }, .ok ())
  else (s, .error (.notFound "Card not found"))

/-- `LabelRepository.AssignToCard` (label.go:156): first `SELECT EXISTS(...)`
on the pair; if present, return with no write; otherwise INSERT the row. -/
def LabelRepo.assignToCard (cls : List CardLabel) (cardID labelID : ℕ) :
    List CardLabel :=
  if cls.any (fun r => r.cardID == cardID && r.labelID == labelID) then cls
  else cls ++ [⟨cardID, labelID⟩]

/-- Number of stored `card_labels` rows for one (card, label) pair. -/
def pairCount (cls : List CardLabel) (cardID labelID : ℕ) : ℕ :=
  (cls.filter (fun r => r.cardID == cardID && r.labelID == labelID)).length

/-- `ListRepository.GetByBoardID` (list.go:79): `WHERE board_id = ? ORDER BY
position`; the scan loop's slice is returned with no nil-normalization. -/
def ListRepo.getByBoardID (lists : List KList) (boardID : ℕ) :
    Option (List KList) :=
  scanSlice (List.insertionSort (fun a b => a.position ≤ b.position)
    (lists.filter (fun l => l.boardID == boardID)))

/-- `CardRepository.GetByListID` (card.go:81): `WHERE list_id = ?`, plus
`AND archived = 0` unless `includeArchived`, `ORDER BY position`; ends with
an explicit nil-to-empty normalization. -/
def CardRepo.getByListID (cards : List Card) (listID : ℕ)
    (includeArchived : Bool) : Option (List Card) :=
  some ((scanSlice (List.insertionSort (fun a b : Card => a.position ≤ b.position)
    (cards.filter (fun c =>
      c.listID == listID && (includeArchived || !c.archived))))).getD [])

/-- `CardRepository.GetComments` (card.go:349): `WHERE card_id = ? ORDER BY
created_at DESC`; no nil-normalization. -/
def CardRepo.getComments (comments : List Comment) (cardID : ℕ) :
    Option (List Comment) :=
  scanSlice (List.insertionSort (fun a b : Comment => b.createdAt ≤ a.createdAt)
    (comments.filter (fun cm => cm.cardID == cardID)))

/-- `BoardRepository.GetAll`: `ORDER BY created_at DESC`; no
nil-normalization. -/
def BoardRepo.getAll (boards : List Board) : Option (List Board) :=
  scanSlice (List.insertionSort (fun a b : Board => b.createdAt ≤ a.createdAt) boards)

/-- `LabelRepository.GetAll` (label.go:42): `ORDER BY name ASC`; ends with an
explicit nil-to-empty normalization. -/
def LabelRepo.getAll (labels : List Label) : Option (List Label) :=
  some ((scanSlice (List.insertionSort (fun a b : Label => a.name ≤ b.name)
    labels)).getD [])

/-- `LabelRepository.GetCardLabels` (label.go:206): labels joined through
`card_labels` rows of the card, `ORDER BY name ASC`, nil normalized. -/
def LabelRepo.getCardLabels (labels : List Label) (cls : List CardLabel)
    (cardID : ℕ) : Option (List Label) :=
  some ((scanSlice (List.insertionSort (fun a b : Label => a.name ≤ b.name)
    (labels.filter (fun l =>
      cls.any (fun r => r.cardID == cardID && r.labelID == l.id))))).getD [])

/-- `models.SearchCardsRequest`: zero values (empty string / 0 / nil) mean
"filter not supplied". -/
structure SearchCardsRequest where
  query : String
  boardID : ℕ
  listID : ℕ
  archived : Option Bool
  labelID : ℕ
deriving Repr, DecidableEq

/-- ASCII lower-casing, as SQLite's default LIKE collation applies it. -/
def asciiLower (c : Char) : Char :=
  if 'A' ≤ c ∧ c ≤ 'Z' then Char.ofNat (c.toNat + 32) else c

def startsWithSub : List Char → List Char → Bool
  | _, [] => true
  | [], _ :: _ => false
  | a :: as, b :: bs => a == b && startsWithSub as bs

/-- `hasSub needle hay`: `needle` occurs contiguously in `hay`. -/
def hasSub (needle : List Char) : List Char → Bool
  | [] => startsWithSub [] needle
  | h :: t => startsWithSub (h :: t) needle || hasSub needle t

/-- All suffixes of a character list, longest first (the string itself down
to the empty suffix). -/
def suffixes : List Char → List (List Char)
  | [] => [[]]
  | c :: t => (c :: t) :: suffixes t

/-- SQL LIKE pattern matching over characters: `%` matches any sequence
(the rest of the pattern must match some suffix), `_` matches any single
character, anything else matches itself. No ESCAPE clause is in play —
the Go code (card.go:240) builds the pattern by plain concatenation. -/
def likeMatch : List Char → List Char → Bool
  | [], s => s.isEmpty
  | p :: ps, s =>
    if p == '%' then (suffixes s).any (fun t => likeMatch ps t)
    else
      match s with
      | [] => false
      | c :: t => (p == '_' || p == c) && likeMatch ps t

/-- `col LIKE '%' || q || '%'` under SQLite's default LIKE: ASCII
case-insensitive, and the caller-supplied `q` is NOT escaped, so `%` and
`_` inside it act as wildcards. -/
def sqlLike (q s : String) : Bool :=
  likeMatch ('%' :: (q.toList.map asciiLower ++ ['%'])) (s.toList.map asciiLower)

/-- Literal (wildcard-free) ASCII-case-insensitive substring matching: the
reading that the claim's words "substring match" describe. It coincides
with `sqlLike` exactly when the query contains neither `%` nor `_`. -/
def substrMatch (q s : String) : Bool :=
  hasSub (q.toList.map asciiLower) (s.toList.map asciiLower)

/-- The `c.archived = ?` condition, appended only when the Archived pointer
is non-nil. -/
def archivedCond (o : Option Bool) (c : Card) : Bool :=
  match o with
  | none => true
  | some a => c.archived == a

/-- The WHERE clause of `CardRepository.Search` (card.go:223) as a row
predicate: each condition is appended only when its parameter is non-zero
resp. non-nil, and all are joined by AND. The board condition reflects the
`LEFT JOIN lists ... LEFT JOIN boards ... AND b.id = ?` pair of joins, the
label condition the `LEFT JOIN card_labels ... AND cl.label_id = ?` join
(`SELECT DISTINCT` collapses the duplicate rows that join can produce). -/
def searchPred (s : KState) (p : SearchCardsRequest) (c : Card) : Bool :=
  (p.query == "" || (sqlLike p.query c.title || sqlLike p.query c.description)) &&
  (p.boardID == 0 || s.lists.any (fun l => l.id == c.listID &&
      l.boardID == p.boardID && s.boards.any (fun b => b.id == l.boardID))) &&
  (p.listID == 0 || c.listID == p.listID) &&
  archivedCond p.archived c &&
  (p.labelID == 0 || s.cardLabels.any (fun r =>
      r.cardID == c.id && r.labelID == p.labelID))

/-- `CardRepository.Search` (card.go:223): filter, `ORDER BY c.created_at
DESC`, and the final nil-to-empty normalization. -/
def CardRepo.search (s : KState) (p : SearchCardsRequest) : Option (List Card) :=
  some ((scanSlice (List.insertionSort createdDesc
    (s.cards.filter (searchPred s p)))).getD [])

/-- `m` is the greatest stored position among the cards of list `listID`
(the "max sibling position" of the create policy, when any sibling exists). -/
def IsGreatestSibling (cards : List Card) (listID : ℕ) (m : ℚ) : Prop :=
  (∃ c ∈ cards, c.listID = listID ∧ c.position = m) ∧
    ∀ c ∈ cards, c.listID = listID → c.position ≤ m

/-- `m` is the greatest stored position among the lists of board `boardID`. -/
def IsGreatestListSibling (lists : List KList) (boardID : ℕ) (m : ℚ) : Prop :=
  (∃ l ∈ lists, l.boardID = boardID ∧ l.position = m) ∧
    ∀ l ∈ lists, l.boardID = boardID → l.position ≤ m

/-- Board "B1" (id 1) with lists "Backlog" (id 1, position 1) and "Done"
(id 2, position 5). -/
def backlogL : KList := ⟨1, 1, "Backlog", 1, "#6b7280", 0, 0⟩

def doneL : KList := ⟨2, 1, "Done", 5, "#6b7280", 0, 0⟩

def twoListState : KState := ⟨[⟨1, "B1", "", 0, 0⟩], [backlogL, doneL], [], [], [], []⟩

def movedTwoListState : KState :=
  { twoListState with lists := [{ backlogL with position := 3, updatedAt := 7 }, doneL] }

/-- Board 1 with the single list "L1" (id 1) holding the single card
"Task A" (id 1, position 1). -/
def listL1 : KList := ⟨1, 1, "L1", 1, "#6b7280", 0, 0⟩

def cardA : Card := ⟨1, 1, "Task A", "", 1, "", none, false, 0, 0⟩

def oneCardState : KState := ⟨[⟨1, "B1", "", 0, 0⟩], [listL1], [cardA], [], [], []⟩

def emptyState : KState := ⟨[], [], [], [], [], []⟩

/-- A card stored at position -1 (positions are never validated, and a
nonzero create position is stored verbatim, so this state is reachable). -/
def negCard : Card := ⟨1, 1, "Neg", "", -1, "", none, false, 0, 0⟩

/-- A card stored at position 5. -/
def fiveCard : Card := ⟨1, 1, "Five", "", 5, "", none, false, 0, 0⟩

/-- A concrete move request: card to list 1 at caller-chosen position 3/2. -/
def moveReqA : MoveCardRequest := ⟨1, 3 / 2⟩

/-- A card titled "ba": the LIKE pattern %_a% matches it ("_" consumes the
"b"), but "_a" is not a literal substring of "ba". -/
def cardBA : Card := ⟨1, 1, "ba", "", 1, "", none, false, 0, 0⟩

def wildcardState : KState := ⟨[], [], [cardBA], [], [], []⟩

/-- The stored row after the concrete move (timestamp refreshed to 5). -/
def movedCardStored : Card :=
  { cardA with listID := moveReqA.listID, position := moveReqA.position, updatedAt := 5 }

def movedOneCardState : KState :=
  { oneCardState with cards := [movedCardStored] }

/-- The handler's response body (the pre-move row with list/position echoed). -/
def movedCardRes : Card :=
  { cardA with listID := moveReqA.listID, position := moveReqA.position }

theorem sqlMax_eq_none_iff (l : List ℚ) : sqlMax l = none ↔ l = [] := by
  cases l with
  | nil => simp [sqlMax]
  | cons x xs =>
    simp only [sqlMax]
    cases sqlMax xs <;> simp

theorem sqlMax_mem {l : List ℚ} {m : ℚ} (h : sqlMax l = some m) : m ∈ l := by
  induction l generalizing m with
  | nil => simp [sqlMax] at h
  | cons x xs ih =>
    simp only [sqlMax] at h
    cases hx : sqlMax xs with
    | none =>
      rw [hx] at h
      simp only [Option.some.injEq] at h
      subst h
      exact List.mem_cons_self x xs
    | some y =>
      rw [hx] at h
      simp only [Option.some.injEq] at h
      rcases max_choice x y with hm | hm
      · rw [← h, hm]; exact List.mem_cons_self x xs
      · rw [← h, hm]; exact List.mem_cons_of_mem x (ih hx)

theorem sqlMax_is_ub {l : List ℚ} {m : ℚ} (h : sqlMax l = some m) :
    ∀ x ∈ l, x ≤ m := by
  induction l generalizing m with
  | nil => simp
  | cons a as ih =>
    simp only [sqlMax] at h
    cases hx : sqlMax as with
    | none =>
      rw [hx] at h
      simp only [Option.some.injEq] at h
      have : as = [] := (sqlMax_eq_none_iff as).mp hx
      subst this
      simp [← h]
    | some y =>
      rw [hx] at h
      simp only [Option.some.injEq] at h
      intro x hxm
      rcases List.mem_cons.mp hxm with rfl | hmem
      · rw [← h]; exact le_max_left _ _
      · calc x ≤ y := ih hx x hmem
          _ ≤ m := h ▸ le_max_right a y

theorem sqlMin_eq_none_iff (l : List ℚ) : sqlMin l = none ↔ l = [] := by
  cases l with
  | nil => simp [sqlMin]
  | cons x xs =>
    simp only [sqlMin]
    cases sqlMin xs <;> simp

theorem sqlMin_mem {l : List ℚ} {m : ℚ} (h : sqlMin l = some m) : m ∈ l := by
  induction l generalizing m with
  | nil => simp [sqlMin] at h
  | cons x xs ih =>
    simp only [sqlMin] at h
    cases hx : sqlMin xs with
    | none =>
      rw [hx] at h
      simp only [Option.some.injEq] at h
      subst h
      exact List.mem_cons_self x xs
    | some y =>
      rw [hx] at h
      simp only [Option.some.injEq] at h
      rcases min_choice x y with hm | hm
      · rw [← h, hm]; exact List.mem_cons_self x xs
      · rw [← h, hm]; exact List.mem_cons_of_mem x (ih hx)

theorem sqlMin_is_lb {l : List ℚ} {m : ℚ} (h : sqlMin l = some m) :
    ∀ x ∈ l, m ≤ x := by
  induction l generalizing m with
  | nil => simp
  | cons a as ih =>
    simp only [sqlMin] at h
    cases hx : sqlMin as with
    | none =>
      rw [hx] at h
      simp only [Option.some.injEq] at h
      have : as = [] := (sqlMin_eq_none_iff as).mp hx
      subst this
      simp [← h]
    | some y =>
      rw [hx] at h
      simp only [Option.some.injEq] at h
      intro x hxm
      rcases List.mem_cons.mp hxm with rfl | hmem
      · rw [← h]; exact min_le_left _ _
      · calc m ≤ y := h ▸ min_le_right a y
          _ ≤ x := ih hx x hmem

theorem mem_positionsBelow {lists : List KList} {bid : ℕ} {t x : ℚ} :
    x ∈ positionsBelow lists bid t ↔
      ∃ l ∈ lists, l.boardID = bid ∧ l.position < t ∧ l.position = x := by
  simp only [positionsBelow, List.mem_map, List.mem_filter, Bool.and_eq_true,
    beq_iff_eq, decide_eq_true_eq]
  constructor
  · rintro ⟨l, ⟨hl, hb, hp⟩, rfl⟩
    exact ⟨l, hl, hb, hp, rfl⟩
  · rintro ⟨l, hl, hb, hp, rfl⟩
    exact ⟨l, ⟨hl, hb, hp⟩, rfl⟩

theorem mem_positionsAbove {lists : List KList} {bid : ℕ} {t x : ℚ} :
    x ∈ positionsAbove lists bid t ↔
      ∃ l ∈ lists, l.boardID = bid ∧ t < l.position ∧ l.position = x := by
  simp only [positionsAbove, List.mem_map, List.mem_filter, Bool.and_eq_true,
    beq_iff_eq, decide_eq_true_eq]
  constructor
  · rintro ⟨l, ⟨hl, hb, hp⟩, rfl⟩
    exact ⟨l, hl, hb, hp, rfl⟩
  · rintro ⟨l, hl, hb, hp, rfl⟩
    exact ⟨l, ⟨hl, hb, hp⟩, rfl⟩

theorem getAdjacentPositions_fst (lists : List KList) (bid : ℕ) (t : ℚ) :
    (ListRepo.getAdjacentPositions lists bid t).1
      = (sqlMax (positionsBelow lists bid t)).getD 0 := rfl

theorem getAdjacentPositions_snd (lists : List KList) (bid : ℕ) (t : ℚ) :
    (ListRepo.getAdjacentPositions lists bid t).2
      = (sqlMin (positionsAbove lists bid t)).getD
          ((sqlMax (positionsBelow lists bid t)).getD 0 + 2) := rfl

theorem updatePosition_fst (lists : List KList) (id : ℕ) (pos : ℚ) (now : ℕ) :
    (ListRepo.updatePosition lists id pos now).1
      = lists.map (fun l =>
          if l.id == id then { l with position := pos, updatedAt := now } else l) := rfl

theorem adjacentPrev_spec (lists : List KList) (bid : ℕ) (t : ℚ) :
    IsGreatestBelow lists bid t (ListRepo.getAdjacentPositions lists bid t).1 ∨
      ((ListRepo.getAdjacentPositions lists bid t).1 = 0 ∧
        ∀ l ∈ lists, l.boardID = bid → ¬ l.position < t) := by
  rw [getAdjacentPositions_fst]
  cases hm : sqlMax (positionsBelow lists bid t) with
  | none =>
    right
    refine ⟨by simp, ?_⟩
    intro l hl hb hlt
    have hmem : l.position ∈ positionsBelow lists bid t :=
      mem_positionsBelow.mpr ⟨l, hl, hb, hlt, rfl⟩
    rw [(sqlMax_eq_none_iff _).mp hm] at hmem
    simp at hmem
  | some m =>
    left
    simp only [Option.getD_some]
    obtain ⟨l, hl, hb, hlt, hp⟩ := mem_positionsBelow.mp (sqlMax_mem hm)
    refine ⟨⟨l, hl, hb, hp, hp ▸ hlt⟩, ?_⟩
    intro l' hl' hb' hlt'
    exact sqlMax_is_ub hm _ (mem_positionsBelow.mpr ⟨l', hl', hb', hlt', rfl⟩)

theorem adjacentNext_spec (lists : List KList) (bid : ℕ) (t : ℚ) :
    IsLeastAbove lists bid t (ListRepo.getAdjacentPositions lists bid t).2 ∨
      ((ListRepo.getAdjacentPositions lists bid t).2
          = (ListRepo.getAdjacentPositions lists bid t).1 + 2 ∧
        ∀ l ∈ lists, l.boardID = bid → ¬ t < l.position) := by
  rw [getAdjacentPositions_snd, getAdjacentPositions_fst]
  cases hm : sqlMin (positionsAbove lists bid t) with
  | none =>
    right
    refine ⟨by simp, ?_⟩
    intro l hl hb hlt
    have hmem : l.position ∈ positionsAbove lists bid t :=
      mem_positionsAbove.mpr ⟨l, hl, hb, hlt, rfl⟩
    rw [(sqlMin_eq_none_iff _).mp hm] at hmem
    simp at hmem
  | some m =>
    left
    simp only [Option.getD_some]
    obtain ⟨l, hl, hb, hlt, hp⟩ := mem_positionsAbove.mp (sqlMin_mem hm)
    refine ⟨⟨l, hl, hb, hp, hp ▸ hlt⟩, ?_⟩
    intro l' hl' hb' hlt'
    exact sqlMin_is_lb hm _ (mem_positionsAbove.mpr ⟨l', hl', hb', hlt', rfl⟩)

theorem moveList_ok_elim {s : KState} {id : ℕ} {t : ℚ} {now : ℕ} {s' : KState}
    {res : KList} (h : ListHandler.move s id t now = (s', Except.ok res)) :
    ∃ l₀, ListRepo.getByID s.lists id = some l₀ ∧
      res = { l₀ with position := (allocMidpoint
          (ListRepo.getAdjacentPositions s.lists l₀.boardID t).1
          (ListRepo.getAdjacentPositions s.lists l₀.boardID t).2) } ∧
      s'.lists = (ListRepo.updatePosition s.lists id res.position now).1 := by
  unfold ListHandler.move at h
  cases hg : ListRepo.getByID s.lists id with
  | none => rw [hg] at h; simp at h
  | some l₀ =>
    rw [hg] at h
    simp only [] at h
    split at h
    · simp only [Prod.mk.injEq, Except.ok.injEq] at h
      refine ⟨l₀, rfl, h.2.symm, ?_⟩
      rw [← h.1, ← h.2]
    · simp at h

/-- C1 (amended): after every successful `MoveList(listID, targetPosition)`,
the new stored position is the midpoint `(prev + next) / 2`, where `prev` is
the greatest stored position strictly below the target and `next` the
smallest strictly above it, both scoped to the same board but ranging over
ALL of the board's lists — the list being moved is NOT excluded — with
`prev` defaulting to 0 and `next` to `prev + 2`; the stored row also gets
the refreshed timestamp. -/
theorem moveList_midpoint_of_stored_neighbors (s : KState) (id : ℕ) (t : ℚ)
    (now : ℕ) (s' : KState) (res : KList)
    (h : ListHandler.move s id t now = (s', Except.ok res)) :
    ∃ l₀, ListRepo.getByID s.lists id = some l₀ ∧
      ∃ prev next : ℚ,
        (IsGreatestBelow s.lists l₀.boardID t prev ∨
          (prev = 0 ∧ ∀ l ∈ s.lists, l.boardID = l₀.boardID → ¬ l.position < t)) ∧
        (IsLeastAbove s.lists l₀.boardID t next ∨
          (next = prev + 2 ∧ ∀ l ∈ s.lists, l.boardID = l₀.boardID → ¬ t < l.position)) ∧
        res.position = (prev + next) / 2 ∧
        (∀ l' ∈ s'.lists, l'.id = id →
          l'.position = (prev + next) / 2 ∧ l'.updatedAt = now) := by
  obtain ⟨l₀, hg, hres, hout⟩ := moveList_ok_elim h
  refine ⟨l₀, hg, (ListRepo.getAdjacentPositions s.lists l₀.boardID t).1,
    (ListRepo.getAdjacentPositions s.lists l₀.boardID t).2,
    adjacentPrev_spec _ _ _, adjacentNext_spec _ _ _, by rw [hres]; rfl, ?_⟩
  intro l' hl' hid
  rw [hout, updatePosition_fst] at hl'
  obtain ⟨a, -, rfl⟩ := List.mem_map.mp hl'
  by_cases hc : (a.id == id) = true
  · rw [if_pos hc]
    exact ⟨by rw [hres]; rfl, rfl⟩
  · rw [if_neg hc] at hid
    exact absurd hid (by simpa using hc)

/-- C1 counterexample: moving list 1 (stored position 1) to target position 3
on a board whose only other list sits at position 5. The code's scan does
not exclude the moved list, so it finds prev = 1 (the moved list itself) and
next = 5 and stores 3; the spec's "excluding the List being moved" lookup
gives prev = 0, next = 5 and midpoint 5/2, so the stored value contradicts
the claim. -/
theorem moveList_excluding_counterexample :
    (ListHandler.move twoListState 1 3 7).2
        = Except.ok { backlogL with position := 3 } ∧
    allocMidpoint (specAdjacentPositionsExcluding twoListState.lists 1 1 3).1
        (specAdjacentPositionsExcluding twoListState.lists 1 1 3).2 = 5 / 2 ∧
    (3 : ℚ) ≠ 5 / 2 := by
  refine ⟨?_, ?_, by norm_num⟩
  · norm_num [ListHandler.move, ListRepo.getByID, ListRepo.getAdjacentPositions,
      ListRepo.updatePosition, allocMidpoint, positionsBelow, positionsAbove,
      sqlMax, sqlMin, twoListState, backlogL, doneL, List.filter, List.find?]
  · norm_num [specAdjacentPositionsExcluding, allocMidpoint, positionsBelow,
      positionsAbove, sqlMax, sqlMin, twoListState, backlogL, doneL, List.filter]

/-- Witness for C1 (amended) at the concrete two-list board. -/
theorem moveList_midpoint_witness :
    ∃ l₀, ListRepo.getByID twoListState.lists 1 = some l₀ ∧
      ∃ prev next : ℚ,
        (IsGreatestBelow twoListState.lists l₀.boardID 3 prev ∨
          (prev = 0 ∧ ∀ l ∈ twoListState.lists, l.boardID = l₀.boardID →
            ¬ l.position < 3)) ∧
        (IsLeastAbove twoListState.lists l₀.boardID 3 next ∨
          (next = prev + 2 ∧ ∀ l ∈ twoListState.lists, l.boardID = l₀.boardID →
            ¬ (3 : ℚ) < l.position)) ∧
        ({ backlogL with position := 3 } : KList).position = (prev + next) / 2 ∧
        (∀ l' ∈ movedTwoListState.lists, l'.id = 1 →
          l'.position = (prev + next) / 2 ∧ l'.updatedAt = 7) :=
  moveList_midpoint_of_stored_neighbors twoListState 1 3 7 movedTwoListState
    { backlogL with position := 3 }
    (by norm_num [ListHandler.move, ListRepo.getByID, ListRepo.getAdjacentPositions,
      ListRepo.updatePosition, allocMidpoint, positionsBelow, positionsAbove,
      sqlMax, sqlMin, twoListState, movedTwoListState, backlogL, doneL,
      List.filter, List.find?])

/-- C2: for every pair of neighbor positions with `prev < next`, the
midpoint allocator used by the list move returns a value strictly between
them. -/
theorem allocMidpoint_strictly_between (prev next : ℚ) (h : prev < next) :
    prev < allocMidpoint prev next ∧ allocMidpoint prev next < next := by
  unfold allocMidpoint
  constructor <;> linarith

/-- Witness for C2 at the concrete pair (1, 4). -/
theorem allocMidpoint_strictly_between_witness :
    (1 : ℚ) < allocMidpoint 1 4 ∧ allocMidpoint 1 4 < 4 :=
  allocMidpoint_strictly_between 1 4 (by norm_num)

theorem find?_imp_any {α : Type} {p : α → Bool} {l : List α} {a : α}
    (h : l.find? p = some a) : l.any p = true :=
  List.any_eq_true.mpr ⟨a, List.mem_of_find?_eq_some h, List.find?_some h⟩

theorem cardMove_fst (cards : List Card) (cardID newListID : ℕ) (p : ℚ) (now : ℕ) :
    (CardRepo.move cards cardID newListID p now).1
      = cards.map (fun c => if c.id == cardID then
          { c with listID := newListID, position := p, updatedAt := now } else c) := rfl

theorem cardMove_snd (cards : List Card) (cardID newListID : ℕ) (p : ℚ) (now : ℕ) :
    (CardRepo.move cards cardID newListID p now).2
      = cards.any (fun c => c.id == cardID) := rfl

theorem cardArchive_fst (cards : List Card) (id : ℕ) (flag : Bool) (now : ℕ) :
    (CardRepo.archive cards id flag now).1
      = cards.map (fun c => if c.id == id then
          { c with archived := flag, updatedAt := now } else c) := rfl

theorem cardArchive_snd (cards : List Card) (id : ℕ) (flag : Bool) (now : ℕ) :
    (CardRepo.archive cards id flag now).2
      = cards.any (fun c => c.id == id) := rfl

theorem cardMove_ok_elim {s : KState} {id : ℕ} {req : MoveCardRequest} {now : ℕ}
    {s' : KState} {res : Card}
    (h : CardHandler.move s id req now = (s', Except.ok res)) :
    ∃ c₀, CardRepo.getByID s.cards id = some c₀ ∧
      res = { c₀ with listID := req.listID, position := req.position } ∧
      s'.cards = (CardRepo.move s.cards id req.listID req.position now).1 := by
  unfold CardHandler.move at h
  cases hc : CardRepo.getByID s.cards id with
  | none => rw [hc] at h; simp at h
  | some c₀ =>
    rw [hc] at h
    cases hl : ListRepo.getByID s.lists req.listID with
    | none => rw [hl] at h; simp at h
    | some l =>
      rw [hl] at h
      simp only [] at h
      split at h
      · simp only [Prod.mk.injEq, Except.ok.injEq] at h
        refine ⟨c₀, rfl, h.2.symm, ?_⟩
        rw [← h.1]
      · simp at h

/-- C3: `MoveCard(cardID, targetListID, newPosition)` fails exactly when the
card id or the target list id does not resolve; every failure is a NotFound
and leaves the stored cards untouched (no partial write). -/
theorem cardMove_notFound_iff (s : KState) (id : ℕ) (req : MoveCardRequest)
    (now : ℕ) :
    ((∃ e, (CardHandler.move s id req now).2 = Except.error e) ↔
      (CardRepo.getByID s.cards id = none ∨
        ListRepo.getByID s.lists req.listID = none)) ∧
    (∀ e, (CardHandler.move s id req now).2 = Except.error e →
      (∃ msg, e = ApiErr.notFound msg) ∧ (CardHandler.move s id req now).1 = s) := by
  cases hc : CardRepo.getByID s.cards id with
  | none =>
    have hm : CardHandler.move s id req now
        = (s, .error (.notFound "Card not found")) := by
      unfold CardHandler.move; rw [hc]
    rw [hm]
    exact ⟨⟨fun _ => Or.inl rfl, fun _ => ⟨_, rfl⟩⟩,
      fun e he => ⟨⟨"Card not found", by simpa using he.symm⟩, rfl⟩⟩
  | some c₀ =>
    cases hl : ListRepo.getByID s.lists req.listID with
    | none =>
      have hm : CardHandler.move s id req now
          = (s, .error (.notFound "Target list not found")) := by
        unfold CardHandler.move; rw [hc, hl]
      rw [hm]
      exact ⟨⟨fun _ => Or.inr rfl, fun _ => ⟨_, rfl⟩⟩,
        fun e he => ⟨⟨"Target list not found", by simpa using he.symm⟩, rfl⟩⟩
    | some l =>
      have hany : (s.cards.any fun c => c.id == id) = true := find?_imp_any hc
      have hm : CardHandler.move s id req now
          = ({ s with cards := (CardRepo.move s.cards id req.listID req.position now).1 },
             .ok { c₀ with listID := req.listID, position := req.position }) := by
        unfold CardHandler.move
        rw [hc, hl]
        simp only []
        rw [cardMove_snd, if_pos hany]
      rw [hm]
      refine ⟨⟨?_, ?_⟩, ?_⟩
      · rintro ⟨e, he⟩; simp at he
      · rintro (hn | hn) <;> simp at hn
      · intro e he; simp at he

/-- Witness for C3 at a concrete state with no cards and no lists. -/
theorem cardMove_notFound_iff_witness :
    ((∃ e, (CardHandler.move emptyState 1 ⟨1, 1⟩ 0).2 = Except.error e) ↔
      (CardRepo.getByID emptyState.cards 1 = none ∨
        ListRepo.getByID emptyState.lists 1 = none)) ∧
    (∀ e, (CardHandler.move emptyState 1 ⟨1, 1⟩ 0).2 = Except.error e →
      (∃ msg, e = ApiErr.notFound msg) ∧
        (CardHandler.move emptyState 1 ⟨1, 1⟩ 0).1 = emptyState) :=
  cardMove_notFound_iff emptyState 1 ⟨1, 1⟩ 0

/-- C4: for every successful MoveCard the card row is stored with exactly the
caller-supplied position (no server-side recomputation), the target list
reference, and a refreshed updated_at, in one update that leaves every other
field of the card — and every other card — unchanged. -/
theorem cardMove_stores_caller_position (s : KState) (id : ℕ)
    (req : MoveCardRequest) (now : ℕ) (s' : KState) (res : Card)
    (h : CardHandler.move s id req now = (s', Except.ok res)) :
    res.listID = req.listID ∧ res.position = req.position ∧
    (∀ c₀ ∈ s.cards, c₀.id = id →
      ({ c₀ with listID := req.listID, position := req.position, updatedAt := now } : Card) ∈ s'.cards) ∧
    (∀ c₀ ∈ s.cards, c₀.id ≠ id → c₀ ∈ s'.cards) := by
  obtain ⟨c₀, hc, hres, hout⟩ := cardMove_ok_elim h
  refine ⟨by rw [hres], by rw [hres], ?_, ?_⟩
  · intro c₁ hc₁ hid
    rw [hout, cardMove_fst]
    have hfc : (fun c => if c.id == id then
        { c with listID := req.listID, position := req.position, updatedAt := now } else c) c₁
        = { c₁ with listID := req.listID, position := req.position, updatedAt := now } := by
      simp [beq_iff_eq, hid]
    rw [← hfc]
    exact List.mem_map_of_mem _ hc₁
  · intro c₁ hc₁ hid
    rw [hout, cardMove_fst]
    have hfc : (fun c => if c.id == id then
        { c with listID := req.listID, position := req.position, updatedAt := now } else c) c₁
        = c₁ := by
      simp [beq_iff_eq, hid]
    rw [← hfc]
    exact List.mem_map_of_mem _ hc₁

/-- Witness for C4: the one-card board, moving card 1 to list 1 at the
caller-chosen position 3/2. -/
theorem cardMove_stores_caller_position_witness :
    movedCardRes.listID = moveReqA.listID ∧
    movedCardRes.position = moveReqA.position ∧
    (∀ c₀ ∈ oneCardState.cards, c₀.id = 1 →
      ({ c₀ with listID := moveReqA.listID, position := moveReqA.position, updatedAt := 5 } : Card) ∈ movedOneCardState.cards) ∧
    (∀ c₀ ∈ oneCardState.cards, c₀.id ≠ 1 → c₀ ∈ movedOneCardState.cards) :=
  cardMove_stores_caller_position oneCardState 1 moveReqA 5 movedOneCardState
    movedCardRes (by rfl)

/-- C7: Archive/Unarchive fail with NotFound exactly when the card id does
not resolve; where they apply, the card keeps its position, list reference,
title, description, color, due date, archived history and creation time —
only `archived` and `updated_at` change — and every other card is untouched. -/
theorem cardArchive_frame (s : KState) (id : ℕ) (flag : Bool) (now : ℕ) :
    ((CardHandler.archive s id flag now).2
        = Except.error (ApiErr.notFound "Card not found")
      ↔ CardRepo.getByID s.cards id = none) ∧
    (∀ c₀ ∈ s.cards, c₀.id = id →
      ({ c₀ with archived := flag, updatedAt := now } : Card)
        ∈ (CardHandler.archive s id flag now).1.cards) ∧
    (∀ c₀ ∈ s.cards, c₀.id ≠ id →
      c₀ ∈ (CardHandler.archive s id flag now).1.cards) := by
  by_cases hany : (s.cards.any fun c => c.id == id) = true
  · have hm : CardHandler.archive s id flag now
        = ({ s with cards := (CardRepo.archive s.cards id flag now).1 }, .ok ()) := by
      unfold CardHandler.archive
      simp only []
      rw [cardArchive_snd, if_pos hany]
    rw [hm]
    refine ⟨⟨?_, ?_⟩, ?_, ?_⟩
    · intro he; simp at he
    · intro hn
      exfalso
      rw [CardRepo.getByID, List.find?_eq_none] at hn
      obtain ⟨x, hx, px⟩ := List.any_eq_true.mp hany
      exact hn x hx px
    · intro c₁ hc₁ hid
      rw [cardArchive_fst]
      have hfc : (fun c => if c.id == id then
          { c with archived := flag, updatedAt := now } else c) c₁
          = { c₁ with archived := flag, updatedAt := now } := by
        simp [beq_iff_eq, hid]
      rw [← hfc]
      exact List.mem_map_of_mem _ hc₁
    · intro c₁ hc₁ hid
      rw [cardArchive_fst]
      have hfc : (fun c => if c.id == id then
          { c with archived := flag, updatedAt := now } else c) c₁ = c₁ := by
        simp [beq_iff_eq, hid]
      rw [← hfc]
      exact List.mem_map_of_mem _ hc₁
  · have hm : CardHandler.archive s id flag now
        = (s, .error (.notFound "Card not found")) := by
      unfold CardHandler.archive
      simp only []
      rw [cardArchive_snd, if_neg hany]
    have hnone : CardRepo.getByID s.cards id = none := by
      rw [CardRepo.getByID, List.find?_eq_none]
      intro x hx px
      exact hany (List.any_eq_true.mpr ⟨x, hx, px⟩)
    rw [hm]
    refine ⟨⟨fun _ => hnone, fun _ => rfl⟩, ?_, ?_⟩
    · intro c₁ hc₁ hid
      have hca : (s.cards.any fun c => c.id == id) = true :=
        List.any_eq_true.mpr ⟨c₁, hc₁, beq_iff_eq.mpr hid⟩
      exact absurd hca hany
    · intro c₁ hc₁ _
      exact hc₁

/-- Witness for C7 at the one-card board, archiving card 1. -/
theorem cardArchive_frame_witness :
    ((CardHandler.archive oneCardState 1 true 9).2
        = Except.error (ApiErr.notFound "Card not found")
      ↔ CardRepo.getByID oneCardState.cards 1 = none) ∧
    (∀ c₀ ∈ oneCardState.cards, c₀.id = 1 →
      ({ c₀ with archived := true, updatedAt := 9 } : Card)
        ∈ (CardHandler.archive oneCardState 1 true 9).1.cards) ∧
    (∀ c₀ ∈ oneCardState.cards, c₀.id ≠ 1 →
      c₀ ∈ (CardHandler.archive oneCardState 1 true 9).1.cards) :=
  cardArchive_frame oneCardState 1 true 9

/-- C8: AssignLabelToCard is idempotent: a second call with the same pair is
a no-op and, provided the store respects the table's primary key (at most
one row per pair), exactly one association row for the pair remains. -/
theorem assignToCard_idempotent (cls : List CardLabel) (cardID labelID : ℕ)
    (hpk : pairCount cls cardID labelID ≤ 1) :
    LabelRepo.assignToCard (LabelRepo.assignToCard cls cardID labelID) cardID labelID
        = LabelRepo.assignToCard cls cardID labelID ∧
    pairCount (LabelRepo.assignToCard cls cardID labelID) cardID labelID = 1 := by
  by_cases hex : (cls.any fun r => r.cardID == cardID && r.labelID == labelID) = true
  · have h1 : LabelRepo.assignToCard cls cardID labelID = cls := by
      unfold LabelRepo.assignToCard; rw [if_pos hex]
    rw [h1]
    refine ⟨h1, ?_⟩
    obtain ⟨r, hr, pr⟩ := List.any_eq_true.mp hex
    have hmem : r ∈ cls.filter (fun r => r.cardID == cardID && r.labelID == labelID) :=
      List.mem_filter.mpr ⟨hr, pr⟩
    have hpos : 0 < pairCount cls cardID labelID :=
      List.length_pos.mpr (List.ne_nil_of_mem hmem)
    omega
  · have hpair : ((⟨cardID, labelID⟩ : CardLabel).cardID == cardID &&
        (⟨cardID, labelID⟩ : CardLabel).labelID == labelID) = true := by simp
    have h1 : LabelRepo.assignToCard cls cardID labelID
        = cls ++ [⟨cardID, labelID⟩] := by
      unfold LabelRepo.assignToCard; rw [if_neg hex]
    have hcond : ((cls ++ [(⟨cardID, labelID⟩ : CardLabel)]).any fun r =>
        r.cardID == cardID && r.labelID == labelID) = true :=
      List.any_eq_true.mpr ⟨⟨cardID, labelID⟩, by simp, hpair⟩
    have h2 : LabelRepo.assignToCard (cls ++ [⟨cardID, labelID⟩]) cardID labelID
        = cls ++ [⟨cardID, labelID⟩] := by
      unfold LabelRepo.assignToCard; rw [if_pos hcond]
    have hnil : cls.filter (fun r => r.cardID == cardID && r.labelID == labelID)
        = [] := by
      rw [List.filter_eq_nil_iff]
      intro r hr pr
      exact hex (List.any_eq_true.mpr ⟨r, hr, pr⟩)
    constructor
    · rw [h1, h2]
    · rw [h1, pairCount, List.filter_append, hnil]
      simp [hpair]

/-- Witness for C8 starting from an empty association table. -/
theorem assignToCard_idempotent_witness :
    pairCount [] 1 2 ≤ 1 ∧
    (LabelRepo.assignToCard (LabelRepo.assignToCard [] 1 2) 1 2
        = LabelRepo.assignToCard [] 1 2 ∧
      pairCount (LabelRepo.assignToCard [] 1 2) 1 2 = 1) :=
  ⟨by decide, assignToCard_idempotent [] 1 2 (by decide)⟩

theorem cardCreate_position (cards : List Card) (newID listID : ℕ)
    (title description color : String) (dueDate : Option ℕ) (pos : ℚ)
    (archived : Bool) (now : ℕ) :
    (CardRepo.create cards newID listID title description color dueDate pos archived now).2.position
      = if pos == 0 then (CardRepo.maxSiblingPosition cards listID).getD 0 + 1
        else pos := rfl

theorem listCreate_position (lists : List KList) (newID boardID : ℕ)
    (name color : String) (pos : ℚ) (now : ℕ) :
    (ListRepo.create lists newID boardID name color pos now).2.position
      = if pos == 0 then (ListRepo.maxBoardPosition lists boardID).getD 0 + 1
        else pos := rfl

theorem mem_siblingPositions {cards : List Card} {listID : ℕ} {x : ℚ} :
    x ∈ (cards.filter (fun c => c.listID == listID)).map (fun c => c.position) ↔
      ∃ c ∈ cards, c.listID = listID ∧ c.position = x := by
  simp only [List.mem_map, List.mem_filter, beq_iff_eq]
  constructor
  · rintro ⟨c, ⟨hc, hl⟩, rfl⟩; exact ⟨c, hc, hl, rfl⟩
  · rintro ⟨c, hc, hl, rfl⟩; exact ⟨c, ⟨hc, hl⟩, rfl⟩

theorem mem_listSiblingPositions {lists : List KList} {boardID : ℕ} {x : ℚ} :
    x ∈ (lists.filter (fun l => l.boardID == boardID)).map (fun l => l.position) ↔
      ∃ l ∈ lists, l.boardID = boardID ∧ l.position = x := by
  simp only [List.mem_map, List.mem_filter, beq_iff_eq]
  constructor
  · rintro ⟨l, ⟨hl, hb⟩, rfl⟩; exact ⟨l, hl, hb, rfl⟩
  · rintro ⟨l, hl, hb, rfl⟩; exact ⟨l, ⟨hl, hb⟩, rfl⟩

theorem maxSibling_empty {cards : List Card} {listID : ℕ}
    (h : ∀ c ∈ cards, c.listID ≠ listID) :
    CardRepo.maxSiblingPosition cards listID = none := by
  rw [CardRepo.maxSiblingPosition, sqlMax_eq_none_iff, List.map_eq_nil_iff,
    List.filter_eq_nil_iff]
  intro c hc
  simp [beq_iff_eq, h c hc]

theorem maxSibling_greatest {cards : List Card} {listID : ℕ} {m : ℚ}
    (h : IsGreatestSibling cards listID m) :
    CardRepo.maxSiblingPosition cards listID = some m := by
  obtain ⟨⟨c, hc, hl, hp⟩, hub⟩ := h
  cases hM : CardRepo.maxSiblingPosition cards listID with
  | none =>
    rw [CardRepo.maxSiblingPosition, sqlMax_eq_none_iff] at hM
    have hmem : c.position ∈
        (cards.filter (fun c => c.listID == listID)).map (fun c => c.position) :=
      mem_siblingPositions.mpr ⟨c, hc, hl, rfl⟩
    rw [hM] at hmem
    simp at hmem
  | some M =>
    rw [CardRepo.maxSiblingPosition] at hM
    obtain ⟨c', hc', hl', hp'⟩ := mem_siblingPositions.mp (sqlMax_mem hM)
    have h1 : M ≤ m := hp' ▸ hub c' hc' hl'
    have h2 : m ≤ M :=
      sqlMax_is_ub hM _ (mem_siblingPositions.mpr ⟨c, hc, hl, hp⟩)
    rw [le_antisymm h1 h2]

theorem maxBoardPosition_empty {lists : List KList} {boardID : ℕ}
    (h : ∀ l ∈ lists, l.boardID ≠ boardID) :
    ListRepo.maxBoardPosition lists boardID = none := by
  rw [ListRepo.maxBoardPosition, sqlMax_eq_none_iff, List.map_eq_nil_iff,
    List.filter_eq_nil_iff]
  intro l hl
  simp [beq_iff_eq, h l hl]

theorem maxBoardPosition_greatest {lists : List KList} {boardID : ℕ} {m : ℚ}
    (h : IsGreatestListSibling lists boardID m) :
    ListRepo.maxBoardPosition lists boardID = some m := by
  obtain ⟨⟨l, hl, hb, hp⟩, hub⟩ := h
  cases hM : ListRepo.maxBoardPosition lists boardID with
  | none =>
    rw [ListRepo.maxBoardPosition, sqlMax_eq_none_iff] at hM
    have hmem : l.position ∈
        (lists.filter (fun l => l.boardID == boardID)).map (fun l => l.position) :=
      mem_listSiblingPositions.mpr ⟨l, hl, hb, rfl⟩
    rw [hM] at hmem
    simp at hmem
  | some M =>
    rw [ListRepo.maxBoardPosition] at hM
    obtain ⟨l', hl', hb', hp'⟩ := mem_listSiblingPositions.mp (sqlMax_mem hM)
    have h1 : M ≤ m := hp' ▸ hub l' hl' hb'
    have h2 : m ≤ M :=
      sqlMax_is_ub hM _ (mem_listSiblingPositions.mpr ⟨l, hl, hb, hp⟩)
    rw [le_antisymm h1 h2]

/-- C5 (amended): the create position policy for `CreateCard` and
`CreateList`. A position of 0 reaches the repositories both when the caller
omits the field and when the caller supplies 0.0 explicitly (Go's JSON
binding yields the zero value in both cases), so "omitted" must be read as
"zero": a zero position is recomputed as the greatest sibling position + 1
(1 for an empty container), and any NONZERO caller-supplied position is
stored verbatim with no collision check; an explicit 0.0 is not stored
verbatim. -/
theorem create_position_policy (cards : List Card) (lists : List KList)
    (newID listID boardID : ℕ) (title description name color : String)
    (dueDate : Option ℕ) (pos : ℚ) (archived : Bool) (now : ℕ) :
    (pos = 0 →
      ((∀ c ∈ cards, c.listID ≠ listID) →
        (CardRepo.create cards newID listID title description color dueDate pos archived now).2.position = 1) ∧
      (∀ m, IsGreatestSibling cards listID m →
        (CardRepo.create cards newID listID title description color dueDate pos archived now).2.position = m + 1) ∧
      ((∀ l ∈ lists, l.boardID ≠ boardID) →
        (ListRepo.create lists newID boardID name color pos now).2.position = 1) ∧
      (∀ m, IsGreatestListSibling lists boardID m →
        (ListRepo.create lists newID boardID name color pos now).2.position = m + 1)) ∧
    (pos ≠ 0 →
      (CardRepo.create cards newID listID title description color dueDate pos archived now).2.position = pos ∧
      (ListRepo.create lists newID boardID name color pos now).2.position = pos) := by
  constructor
  · rintro rfl
    have hz : ((0 : ℚ) == 0) = true := beq_iff_eq.mpr rfl
    refine ⟨?_, ?_, ?_, ?_⟩
    · intro hempty
      rw [cardCreate_position, if_pos hz, maxSibling_empty hempty]
      norm_num
    · intro m hm
      rw [cardCreate_position, if_pos hz, maxSibling_greatest hm]
      simp
    · intro hempty
      rw [listCreate_position, if_pos hz, maxBoardPosition_empty hempty]
      norm_num
    · intro m hm
      rw [listCreate_position, if_pos hz, maxBoardPosition_greatest hm]
      simp
  · intro hnz
    have hz : ¬((pos == 0) = true) := by simpa [beq_iff_eq] using hnz
    rw [cardCreate_position, if_neg hz, listCreate_position, if_neg hz]
    exact ⟨rfl, rfl⟩

/-- C5 counterexample: an explicitly supplied position of 0.0 is NOT stored
verbatim: with a sibling stored at position 5, creating a card whose bound
position field is an explicit 0 stores 6, not 0. -/
theorem create_verbatim_counterexample :
    bindPosition (some 0) = 0 ∧
    (CardRepo.create [fiveCard] 2 1 "B" "" "" none (bindPosition (some 0))
        false 3).2.position = 6 ∧
    (6 : ℚ) ≠ 0 := by
  refine ⟨rfl, ?_, by norm_num⟩
  norm_num [CardRepo.create, CardRepo.maxSiblingPosition, sqlMax, bindPosition,
    fiveCard, List.filter]

/-- Witness for C5 (amended) at the one-sibling list (card at position 5)
with a zero position field. -/
theorem create_position_policy_witness :
    ((0 : ℚ) = 0 →
      ((∀ c ∈ [fiveCard], c.listID ≠ 1) →
        (CardRepo.create [fiveCard] 2 1 "B" "" "" none 0 false 3).2.position = 1) ∧
      (∀ m, IsGreatestSibling [fiveCard] 1 m →
        (CardRepo.create [fiveCard] 2 1 "B" "" "" none 0 false 3).2.position = m + 1) ∧
      ((∀ l ∈ ([] : List KList), l.boardID ≠ 1) →
        (ListRepo.create [] 2 1 "N" "" 0 3).2.position = 1) ∧
      (∀ m, IsGreatestListSibling [] 1 m →
        (ListRepo.create [] 2 1 "N" "" 0 3).2.position = m + 1)) ∧
    ((0 : ℚ) ≠ 0 →
      (CardRepo.create [fiveCard] 2 1 "B" "" "" none 0 false 3).2.position = 0 ∧
      (ListRepo.create [] 2 1 "N" "" 0 3).2.position = 0) :=
  create_position_policy [fiveCard] [] 2 1 1 "B" "" "N" "" none 0 false 3

/-- C10 (amended): 0 is the create sentinel — a request whose position field
is 0 (omitted or explicit) always stores max-sibling + 1, never the literal
0; when no sibling carries a negative position the stored position is at
least 1, hence never exactly 0. (With a sibling at exactly -1 the computed
value IS 0, as the counterexample shows, so the unconditional "never 0"
reading fails.) -/
theorem create_zero_sentinel (cards : List Card) (lists : List KList)
    (newID listID boardID : ℕ) (title description name color : String)
    (dueDate : Option ℕ) (archived : Bool) (now : ℕ) :
    ((CardRepo.create cards newID listID title description color dueDate 0 archived now).2.position
        = (CardRepo.maxSiblingPosition cards listID).getD 0 + 1) ∧
    ((∀ c ∈ cards, c.listID = listID → 0 ≤ c.position) →
      1 ≤ (CardRepo.create cards newID listID title description color dueDate 0 archived now).2.position ∧
      (CardRepo.create cards newID listID title description color dueDate 0 archived now).2.position ≠ 0) ∧
    ((ListRepo.create lists newID boardID name color 0 now).2.position
        = (ListRepo.maxBoardPosition lists boardID).getD 0 + 1) ∧
    ((∀ l ∈ lists, l.boardID = boardID → 0 ≤ l.position) →
      1 ≤ (ListRepo.create lists newID boardID name color 0 now).2.position ∧
      (ListRepo.create lists newID boardID name color 0 now).2.position ≠ 0) := by
  have hz : ((0 : ℚ) == 0) = true := beq_iff_eq.mpr rfl
  have hcard : (CardRepo.create cards newID listID title description color dueDate 0 archived now).2.position
      = (CardRepo.maxSiblingPosition cards listID).getD 0 + 1 := by
    rw [cardCreate_position, if_pos hz]
  have hlist : (ListRepo.create lists newID boardID name color 0 now).2.position
      = (ListRepo.maxBoardPosition lists boardID).getD 0 + 1 := by
    rw [listCreate_position, if_pos hz]
  refine ⟨hcard, ?_, hlist, ?_⟩
  · intro hnn
    have hge : (0 : ℚ) ≤ (CardRepo.maxSiblingPosition cards listID).getD 0 := by
      cases hM : CardRepo.maxSiblingPosition cards listID with
      | none => simp
      | some M =>
        rw [CardRepo.maxSiblingPosition] at hM
        obtain ⟨c', hc', hl', hp'⟩ := mem_siblingPositions.mp (sqlMax_mem hM)
        simpa using hp' ▸ hnn c' hc' hl'
    rw [hcard]
    constructor
    · linarith
    · intro h0; rw [h0] at hcard; linarith [hcard]
  · intro hnn
    have hge : (0 : ℚ) ≤ (ListRepo.maxBoardPosition lists boardID).getD 0 := by
      cases hM : ListRepo.maxBoardPosition lists boardID with
      | none => simp
      | some M =>
        rw [ListRepo.maxBoardPosition] at hM
        obtain ⟨l', hl', hb', hp'⟩ := mem_listSiblingPositions.mp (sqlMax_mem hM)
        simpa using hp' ▸ hnn l' hl' hb'
    rw [hlist]
    constructor
    · linarith
    · intro h0; rw [h0] at hlist; linarith [hlist]

/-- C10 counterexample: with a sibling stored at position -1, a create
request with position field 0 stores exactly 0 — so stored position 0 is
reachable through the create interface. -/
theorem create_zero_sentinel_counterexample :
    (CardRepo.create [negCard] 2 1 "Z" "" "" none 0 false 3).2.position = 0 := by
  norm_num [CardRepo.create, CardRepo.maxSiblingPosition, sqlMax, negCard,
    List.filter]

/-- Witness for C10 (amended) at the one-sibling list (card at position 5). -/
theorem create_zero_sentinel_witness :
    ((CardRepo.create [fiveCard] 3 1 "C" "" "" none 0 false 4).2.position
        = (CardRepo.maxSiblingPosition [fiveCard] 1).getD 0 + 1) ∧
    ((∀ c ∈ [fiveCard], c.listID = 1 → 0 ≤ c.position) →
      1 ≤ (CardRepo.create [fiveCard] 3 1 "C" "" "" none 0 false 4).2.position ∧
      (CardRepo.create [fiveCard] 3 1 "C" "" "" none 0 false 4).2.position ≠ 0) ∧
    ((ListRepo.create [] 3 1 "M" "" 0 4).2.position
        = (ListRepo.maxBoardPosition [] 1).getD 0 + 1) ∧
    ((∀ l ∈ ([] : List KList), l.boardID = 1 → 0 ≤ l.position) →
      1 ≤ (ListRepo.create [] 3 1 "M" "" 0 4).2.position ∧
      (ListRepo.create [] 3 1 "M" "" 0 4).2.position ≠ 0) :=
  create_zero_sentinel [fiveCard] [] 3 1 1 "C" "" "M" "" none false 4

theorem scanSlice_getD {α : Type} (l : List α) : (scanSlice l).getD [] = l := by
  unfold scanSlice
  split
  · next h => simp [List.isEmpty_iff.mp h]
  · rfl

/-- C6 counterexample: a board with no lists — `ListListsForBoard` hands back
the nil slice, which the JSON layer serialises as `null`, not as an empty
collection. -/
theorem listListsForBoard_nil_counterexample :
    ListRepo.getByBoardID [] 1 = none ∧
      (none : Option (List KList)) ≠ some [] :=
  ⟨rfl, by simp⟩

/-- C6 (amended): `ListCardsForList`, `SearchCards`, `ListLabels` and
`ListLabelsForCard` normalize the nil slice and can never return null; but
`ListListsForBoard`, `ListComments` and `ListBoards` return the nil slice —
serialised as null — whenever no row matches. -/
theorem listing_nil_normalization :
    (∀ cards listID includeArchived, ∃ rows,
      CardRepo.getByListID cards listID includeArchived = some rows) ∧
    (∀ s p, ∃ rows, CardRepo.search s p = some rows) ∧
    (∀ labels, ∃ rows, LabelRepo.getAll labels = some rows) ∧
    (∀ labels cls cardID, ∃ rows,
      LabelRepo.getCardLabels labels cls cardID = some rows) ∧
    (∀ lists boardID, lists.filter (fun l => l.boardID == boardID) = [] →
      ListRepo.getByBoardID lists boardID = none) ∧
    (∀ comments cardID, comments.filter (fun cm => cm.cardID == cardID) = [] →
      CardRepo.getComments comments cardID = none) ∧
    BoardRepo.getAll [] = none := by
  refine ⟨fun cards listID ia => ⟨_, rfl⟩, fun s p => ⟨_, rfl⟩,
    fun labels => ⟨_, rfl⟩, fun labels cls cardID => ⟨_, rfl⟩, ?_, ?_, rfl⟩
  · intro lists boardID hfil
    rw [ListRepo.getByBoardID, hfil]
    rfl
  · intro comments cardID hfil
    rw [CardRepo.getComments, hfil]
    rfl

/-- Witness for C6 (amended): an empty list yields `some []` from
`ListCardsForList` rather than a nil slice. -/
theorem listing_nil_normalization_witness :
    ∃ rows, CardRepo.getByListID [] 1 true = some rows :=
  listing_nil_normalization.1 [] 1 true

theorem nil_mem_suffixes (s : List Char) : ([] : List Char) ∈ suffixes s := by
  induction s with
  | nil => simp [suffixes]
  | cons c t ih => exact List.mem_cons_of_mem _ ih

theorem likeMatch_append_percent (ql : List Char) :
    '%' ∉ ql → '_' ∉ ql →
    ∀ s, likeMatch (ql ++ ['%']) s = startsWithSub s ql := by
  induction ql with
  | nil =>
    intro _ _ s
    have h1 : likeMatch ([] ++ ['%']) s
        = (suffixes s).any (fun t => likeMatch [] t) := by
      simp [likeMatch]
    rw [h1]
    have h2 : ((suffixes s).any fun t => likeMatch [] t) = true :=
      List.any_eq_true.mpr ⟨[], nil_mem_suffixes s, by simp [likeMatch]⟩
    rw [h2]
    cases s <;> simp [startsWithSub]
  | cons a ql ih =>
    intro h1 h2 s
    have ha1 : a ≠ '%' := fun h => h1 (h ▸ List.mem_cons_self a ql)
    have ha2 : a ≠ '_' := fun h => h2 (h ▸ List.mem_cons_self a ql)
    have hq1 : '%' ∉ ql := fun h => h1 (List.mem_cons_of_mem a h)
    have hq2 : '_' ∉ ql := fun h => h2 (List.mem_cons_of_mem a h)
    cases s with
    | nil =>
      simp only [List.cons_append, likeMatch]
      rw [if_neg (by simp [ha1])]
      simp [startsWithSub]
    | cons c t =>
      simp only [List.cons_append, likeMatch]
      rw [if_neg (by simp [ha1])]
      simp only [List.append_eq]
      rw [ih hq1 hq2 t]
      have hau : (a == '_') = false := beq_eq_false_iff_ne.mpr ha2
      by_cases hac : a = c
      · subst hac
        simp [startsWithSub, hau]
      · have hx : (a == c) = false := beq_eq_false_iff_ne.mpr hac
        have hy : (c == a) = false := beq_eq_false_iff_ne.mpr (Ne.symm hac)
        simp [startsWithSub, hau, hx, hy]

theorem hasSub_eq_any_suffixes (ql : List Char) (s : List Char) :
    hasSub ql s = (suffixes s).any (fun t => startsWithSub t ql) := by
  induction s with
  | nil => simp [hasSub, suffixes]
  | cons c t ih => simp [hasSub, suffixes, ih]

theorem charOfNat_toNat (n : Nat) (h : n.isValidChar) :
    (Char.ofNat n).toNat = n := by
  unfold Char.ofNat
  rw [dif_pos h]
  rfl

/-- `asciiLower` can only produce a character outside the lowercase range
a-z by leaving its input unchanged; in particular `%` and `_` are fixed
points, forward and backward. -/
theorem asciiLower_eq_of_not_lower (c w : Char)
    (hw : w.toNat < 97 ∨ 122 < w.toNat) (h : asciiLower c = w) : c = w := by
  by_cases hAZ : 'A' ≤ c ∧ c ≤ 'Z'
  · exfalso
    rw [asciiLower, if_pos hAZ] at h
    have hA : ('A' : Char).toNat = 65 := by decide
    have hZ : ('Z' : Char).toNat = 90 := by decide
    have h1 : ('A' : Char).toNat ≤ c.toNat := hAZ.1
    have h2 : c.toNat ≤ ('Z' : Char).toNat := hAZ.2
    have hv : (c.toNat + 32).isValidChar := by left; omega
    have hc := congrArg Char.toNat h
    rw [charOfNat_toNat _ hv] at hc
    omega
  · rw [asciiLower, if_neg hAZ] at h
    exact h

/-- For queries containing neither LIKE wildcard, the unescaped LIKE filter
is exactly literal substring matching — so the amended reading of C9
degrades to the spec's "substring match" on wildcard-free queries. -/
theorem sqlLike_eq_substrMatch_of_wildcard_free (q s : String)
    (h1 : '%' ∉ q.toList) (h2 : '_' ∉ q.toList) :
    sqlLike q s = substrMatch q s := by
  have hm1 : '%' ∉ q.toList.map asciiLower := by
    intro hmem
    obtain ⟨c, hc, hlc⟩ := List.mem_map.mp hmem
    exact h1 (asciiLower_eq_of_not_lower c '%' (by decide) hlc ▸ hc)
  have hm2 : '_' ∉ q.toList.map asciiLower := by
    intro hmem
    obtain ⟨c, hc, hlc⟩ := List.mem_map.mp hmem
    exact h2 (asciiLower_eq_of_not_lower c '_' (by decide) hlc ▸ hc)
  rw [sqlLike, substrMatch]
  have hlm : likeMatch ('%' :: (q.toList.map asciiLower ++ ['%']))
        (s.toList.map asciiLower)
      = (suffixes (s.toList.map asciiLower)).any
          (fun t => likeMatch (q.toList.map asciiLower ++ ['%']) t) := by
    simp [likeMatch]
  rw [hlm, hasSub_eq_any_suffixes]
  have hfun : (fun t => likeMatch (q.toList.map asciiLower ++ ['%']) t)
      = (fun t => startsWithSub t (q.toList.map asciiLower)) :=
    funext (fun t => likeMatch_append_percent _ hm1 hm2 t)
  rw [hfun]

/-- C9 counterexample: the text filter is not a literal substring match.
SQLite LIKE reads `%` and `_` in the unescaped user query as wildcards
(card.go:239-241 concatenates the raw query into the pattern): searching
for "_a" returns the card titled "ba" — the `_` consumed the "b" — although
neither its title nor its description contains "_a" as a (case-insensitive)
literal substring. -/
theorem search_substring_counterexample :
    CardRepo.search wildcardState ⟨"_a", 0, 0, none, 0⟩ = some [cardBA] ∧
    substrMatch "_a" cardBA.title = false ∧
    substrMatch "_a" cardBA.description = false ∧
    ("_a" : String) ≠ "" := by
  refine ⟨?_, by decide, by decide, by decide⟩
  decide

theorem searchPred_eq_true_iff (s : KState) (p : SearchCardsRequest) (c : Card)
    (hwf : ∀ l ∈ s.lists, ∃ b ∈ s.boards, b.id = l.boardID) :
    searchPred s p c = true ↔
      ((p.query = "" ∨ sqlLike p.query c.title = true ∨
          sqlLike p.query c.description = true) ∧
       (p.boardID = 0 ∨ ∃ l ∈ s.lists, l.id = c.listID ∧ l.boardID = p.boardID) ∧
       (p.listID = 0 ∨ c.listID = p.listID) ∧
       (∀ a, p.archived = some a → c.archived = a) ∧
       (p.labelID = 0 ∨ (⟨c.id, p.labelID⟩ : CardLabel) ∈ s.cardLabels)) := by
  unfold searchPred
  simp only [Bool.and_eq_true, Bool.or_eq_true, beq_iff_eq, List.any_eq_true]
  constructor
  · rintro ⟨⟨⟨⟨h1, h2⟩, h3⟩, h4⟩, h5⟩
    refine ⟨h1, ?_, h3, ?_, ?_⟩
    · rcases h2 with h2 | ⟨l, hl, ⟨⟨hid, hb⟩, -⟩⟩
      · exact Or.inl h2
      · exact Or.inr ⟨l, hl, hid, hb⟩
    · intro a ha
      rw [ha] at h4
      simpa [archivedCond] using h4
    · rcases h5 with h5 | ⟨r, hr, hcid, hlid⟩
      · exact Or.inl h5
      · right
        have : r = ⟨c.id, p.labelID⟩ := by
          cases r
          simp_all
        exact this ▸ hr
  · rintro ⟨h1, h2, h3, h4, h5⟩
    refine ⟨⟨⟨⟨h1, ?_⟩, h3⟩, ?_⟩, ?_⟩
    · rcases h2 with h2 | ⟨l, hl, hid, hb⟩
      · exact Or.inl h2
      · obtain ⟨b, hbmem, hbid⟩ := hwf l hl
        exact Or.inr ⟨l, hl, ⟨⟨hid, hb⟩, b, hbmem, hbid⟩⟩
    · cases hA : p.archived with
      | none => simp [archivedCond]
      | some a => simpa [archivedCond] using h4 a hA
    · rcases h5 with h5 | h5
      · exact Or.inl h5
      · exact Or.inr ⟨⟨c.id, p.labelID⟩, h5, rfl, rfl⟩

/-- C9 (amended): `SearchCards` returns exactly the cards satisfying the
conjunction of the supplied filters — LIKE matching of `'%'+query+'%'`
(ASCII case-insensitive; the unescaped query's `%` and `_` act as
wildcards, and for wildcard-free queries this is literal substring
matching, see `sqlLike_eq_substrMatch_of_wildcard_free`) on title or
description, exact board through the card's list, exact list id, exact
archived flag, exact label membership, each applied only when supplied —
ordered by creation time descending. The hypothesis is the schema's
referential integrity for `lists.board_id`. -/
theorem search_conjunctive_and_sorted (s : KState) (p : SearchCardsRequest)
    (hwf : ∀ l ∈ s.lists, ∃ b ∈ s.boards, b.id = l.boardID) :
    ∀ rows, CardRepo.search s p = some rows →
      ((∀ c, c ∈ rows ↔
        (c ∈ s.cards ∧
         (p.query = "" ∨ sqlLike p.query c.title = true ∨
           sqlLike p.query c.description = true) ∧
         (p.boardID = 0 ∨ ∃ l ∈ s.lists, l.id = c.listID ∧ l.boardID = p.boardID) ∧
         (p.listID = 0 ∨ c.listID = p.listID) ∧
         (∀ a, p.archived = some a → c.archived = a) ∧
         (p.labelID = 0 ∨ (⟨c.id, p.labelID⟩ : CardLabel) ∈ s.cardLabels))) ∧
       rows.Sorted createdDesc) := by
  intro rows hrows
  rw [CardRepo.search, scanSlice_getD, Option.some.injEq] at hrows
  subst hrows
  constructor
  · intro c
    rw [(List.perm_insertionSort createdDesc _).mem_iff, List.mem_filter,
      and_congr_right_iff]
    intro hmem
    exact searchPred_eq_true_iff s p c hwf
  · exact List.sorted_insertionSort createdDesc _

/-- Witness for C9 at the one-card board with no filters supplied: the
result is exactly `[cardA]` and the conjunction holds for it. -/
theorem search_conjunctive_and_sorted_witness :
    (∀ c, c ∈ ([cardA] : List Card) ↔
      (c ∈ oneCardState.cards ∧
       (("" : String) = "" ∨ sqlLike "" c.title = true ∨
         sqlLike "" c.description = true) ∧
       ((0 : ℕ) = 0 ∨ ∃ l ∈ oneCardState.lists, l.id = c.listID ∧ l.boardID = 0) ∧
       ((0 : ℕ) = 0 ∨ c.listID = 0) ∧
       (∀ a, (none : Option Bool) = some a → c.archived = a) ∧
       ((0 : ℕ) = 0 ∨ (⟨c.id, 0⟩ : CardLabel) ∈ oneCardState.cardLabels))) ∧
    ([cardA] : List Card).Sorted createdDesc :=
  search_conjunctive_and_sorted oneCardState ⟨"", 0, 0, none, 0⟩ (by decide) [cardA]
    (by norm_num [CardRepo.search, searchPred, archivedCond, sqlLike, hasSub,
      startsWithSub, asciiLower, scanSlice, oneCardState, cardA, List.filter,
      List.insertionSort, List.orderedInsert])

end Kanban
